import Mathlib

/-!
Verification of the analysis-server orchestration and diagnostics-aggregation
engine of the rescript-vscode extension, by a shallow embedding of
`src/shared/src/projectRoots.ts`, `src/shared/src/findBinary.ts` and
the code-analysis module of `src/client/src/commands.ts` into Lean 4.

Modelling conventions:
* An absolute filesystem path is a `List String` of components below the
  filesystem root (so `[]` is the root `/`).  On such canonical component
  lists `path.normalize` is the identity, `path.join` is list append of
  components, and `path.dirname` is `List.dropLast`; the root is its own
  parent (`dirname [] = []`), exactly the POSIX behaviour the TypeScript
  code relies on (`path.dirname(d) === d` only at the root).
* The filesystem is a snapshot: a decidable set of existing paths
  (`fs.existsSync`) plus the parsed contents of the few JSON files the
  code reads (a read that throws, e.g. missing file or invalid JSON,
  is `none`).
* External library calls (`semver.gte`, the dynamically imported platform
  package) are parameters of the embedding, since their code is outside
  the repository.
-/

namespace Rsv

/-- A filesystem path, as its list of components below the root. -/
abbrev FsPath := List String

/-- `path.dirname` on canonical component lists: drop the last component;
the filesystem root is its own parent. -/
def dirnameP (p : FsPath) : FsPath := p.dropLast

/-- The decidable set of paths that exist on disk (`fs.existsSync`). -/
structure DiskSet where
  exists_ : List FsPath
deriving DecidableEq, Repr

/-- `fs.existsSync` against a snapshot. -/
def existsSync (d : DiskSet) (p : FsPath) : Bool := p ∈ d.exists_

theorem dirnameP_length_lt (p : FsPath) (h : p ≠ []) : (dirnameP p).length < p.length := by
  cases p with
  | nil => exact absurd rfl h
  | cons a l =>
    simp only [dirnameP, List.length_dropLast, List.length_cons]
    omega

/-! ## RootResolver (`src/shared/src/projectRoots.ts`)

`normalizePath` of the source is the identity on canonical component
lists, so it is not reproduced as a separate definition; the `null`
input guard of the TypeScript wrapper cannot fire for a present path
value. -/

/-- `findProjectRootOfFileInDir` from `projectRoots.ts`: take the
directory of `source`, return it if it holds `rescript.json` or
`bsconfig.json`, stop with `none` when the directory equals the source
(which on component lists happens exactly at the filesystem root),
otherwise recurse on the directory. -/
def findProjectRootOfFileInDir (d : DiskSet) (source : FsPath) : Option FsPath :=
  if existsSync d (dirnameP source ++ ["rescript.json"])
      || existsSync d (dirnameP source ++ ["bsconfig.json"]) then
    some (dirnameP source)
  else if dirnameP source = source then
    none
  else
    findProjectRootOfFileInDir d (dirnameP source)
termination_by source.length
decreasing_by
  rename_i h2
  refine dirnameP_length_lt source fun hnil => ?_
  exact h2 (by rw [hnil]; rfl)

/-- `findProjectRootOfFile` from `projectRoots.ts`. -/
def findProjectRootOfFile (d : DiskSet) (source : FsPath) : Option FsPath :=
  findProjectRootOfFileInDir d source

/-- A directory contains one of the two recognized project-marker files. -/
def hasProjectMarker (d : DiskSet) (dir : FsPath) : Bool :=
  existsSync d (dir ++ ["rescript.json"]) || existsSync d (dir ++ ["bsconfig.json"])

/-- Modelled from the spec's words (for comparison with the source
function): the nearest ancestor-or-self of `dir` carrying a project
marker, walking parentwards and answering `none` once the filesystem
root has been checked without success. -/
def nearestMarkedDir (d : DiskSet) (dir : FsPath) : Option FsPath :=
  if hasProjectMarker d dir then some dir
  else if dir = [] then none
  else nearestMarkedDir d (dirnameP dir)
termination_by dir.length
decreasing_by
  rename_i h2
  exact dirnameP_length_lt dir h2

/-- The ancestor chain of a directory, nearest first, ending at the root. -/
def dirChain (dir : FsPath) : List FsPath :=
  dir :: (if _ : dir = [] then [] else dirChain (dirnameP dir))
termination_by dir.length
decreasing_by
  rename_i h2
  exact dirnameP_length_lt dir h2

theorem nearestMarkedDir_eq_find (d : DiskSet) (dir : FsPath) :
    nearestMarkedDir d dir = (dirChain dir).find? (fun x => hasProjectMarker d x) := by
  induction dir using nearestMarkedDir.induct d with
  | case1 x h =>
    rw [nearestMarkedDir, dirChain]
    simp [List.find?, h]
  | case2 h =>
    rw [nearestMarkedDir, dirChain]
    simp [List.find?, h]
  | case3 x h h2 ih =>
    rw [nearestMarkedDir, dirChain]
    simp [List.find?, h, h2, ih]

theorem findInDir_eq_nearestMarked (d : DiskSet) (source : FsPath) :
    findProjectRootOfFileInDir d source = nearestMarkedDir d (dirnameP source) := by
  induction source using findProjectRootOfFileInDir.induct d with
  | case1 x h =>
    rw [findProjectRootOfFileInDir, nearestMarkedDir]
    simp only [hasProjectMarker]
    simp [h]
  | case2 x h h2 =>
    -- `dirname x = x` forces `x = []`: only the root is its own parent.
    have hroot : x = [] := by
      by_contra hne
      have hlt := dirnameP_length_lt x hne
      rw [h2] at hlt
      omega
    subst hroot
    rw [findProjectRootOfFileInDir, nearestMarkedDir]
    simp only [hasProjectMarker] at *
    simp [h, dirnameP]
  | case3 x h h2 ih =>
    rw [findProjectRootOfFileInDir]
    simp only [h, Bool.false_eq_true, if_false, h2, ite_false, ih]
    by_cases hnil : dirnameP x = []
    · rw [hnil]; simp [dirnameP]
    · conv_rhs => rw [nearestMarkedDir]
      simp [hasProjectMarker, h, hnil]

/-- C10: `findProjectRootOfFile` returns the nearest ancestor directory of
the file — starting from its containing directory and walking parentwards,
the root being its own parent — that contains `rescript.json` or
`bsconfig.json`; equivalently, the first marked directory of the ancestor
chain (`List.find?` over `dirChain`, nearest first), and `none` when no
directory of that chain up to the filesystem root carries a marker. -/
theorem findProjectRootOfFile_nearest_marked_ancestor (d : DiskSet) (source : FsPath) :
    findProjectRootOfFile d source = nearestMarkedDir d (dirnameP source) ∧
    findProjectRootOfFile d source
      = (dirChain (dirnameP source)).find? (fun dir => hasProjectMarker d dir) := by
  refine ⟨findInDir_eq_nearestMarked d source, ?_⟩
  rw [findProjectRootOfFile, findInDir_eq_nearestMarked, nearestMarkedDir_eq_find]

/-! ## ServerRegistry (`startReanalyzeServer` / `stopReanalyzeServer` /
`stopAllReanalyzeServers` in `src/client/src/commands.ts`)

Monorepo roots are opaque strings here, as in the TypeScript code;
`path.join(root, name)` on string paths is modelled as
`root ++ "/" ++ name`.  The world state carries the module-level
`reanalyzeServers` map, the set of existing socket files, the pid counter
of the operating system, and a log of `cp.spawn` invocations
(binary path and working directory), so "how many server processes were
spawned" is observable.  Whether the spawned server manages to create its
control-socket file during the 100ms/3s polling loop, and whether
`cp.spawn` yields a pid at all, are environment choices, passed as the
Booleans `socketAppears` and `spawnYieldsPid`. -/

/-- `REANALYZE_SOCKET_FILENAME` from `commands.ts`. -/
def REANALYZE_SOCKET_FILENAME : String := ".rescript-reanalyze.sock"

/-- `getSocketPath` from `commands.ts` (`path.join(monorepoRoot, REANALYZE_SOCKET_FILENAME)`). -/
def getSocketPath (monorepoRoot : String) : String :=
  monorepoRoot ++ "/" ++ REANALYZE_SOCKET_FILENAME

/-- `ReanalyzeServerState` from `commands.ts`.  The process reference is
its pid; the per-server output channel is kept only as a flag (`none`
models the `null` channel of an adopted server). -/
structure ReanalyzeServerState where
  process : Option Nat
  monorepoRoot : String
  socketPath : String
  startedByUs : Bool
  hasOutputChannel : Bool
deriving DecidableEq, Repr

/-- The mutable world the registry operations act on. -/
structure RegistryWorld where
  /-- the module-level `reanalyzeServers : Map<string, ReanalyzeServerState>` -/
  registry : List (String × ReanalyzeServerState)
  /-- the socket files currently existing on disk -/
  socketFiles : List String
  /-- next pid the operating system would hand out -/
  nextPid : Nat
  /-- every `cp.spawn` invocation so far: (binary path, working directory) -/
  spawnLog : List (String × String)
deriving DecidableEq, Repr

/-- `Map.get` on the registry. -/
def lookupServer (reg : List (String × ReanalyzeServerState)) (root : String) :
    Option ReanalyzeServerState :=
  (reg.find? (fun e => e.1 == root)).map (·.2)

/-- `Map.set` on the registry: replace the entry if the key is present,
append otherwise. -/
def setServer (reg : List (String × ReanalyzeServerState)) (root : String)
    (s : ReanalyzeServerState) : List (String × ReanalyzeServerState) :=
  if reg.any (fun e => e.1 == root) then
    reg.map (fun e => if e.1 == root then (root, s) else e)
  else
    reg ++ [(root, s)]

/-- `Map.delete` on the registry. -/
def deleteServer (reg : List (String × ReanalyzeServerState)) (root : String) :
    List (String × ReanalyzeServerState) :=
  reg.filter (fun e => ¬ e.1 == root)

/-- `isServerRunning` from `commands.ts`: the socket file exists. -/
def isServerRunning (w : RegistryWorld) (monorepoRoot : String) : Bool :=
  getSocketPath monorepoRoot ∈ w.socketFiles

/-- The state literal registered on the "server running but not started
by us" path of `startReanalyzeServer` (`process: null, startedByUs:
false, outputChannel: null`). -/
def adoptedState (monorepoRoot : String) : ReanalyzeServerState :=
  { process := none
    monorepoRoot := monorepoRoot
    socketPath := getSocketPath monorepoRoot
    startedByUs := false
    hasOutputChannel := false }

/-- The state literal registered after a successful spawn in
`startReanalyzeServer` (`process: serverProcess, startedByUs: true`). -/
def ownedState (monorepoRoot : String) (pid : Nat) : ReanalyzeServerState :=
  { process := some pid
    monorepoRoot := monorepoRoot
    socketPath := getSocketPath monorepoRoot
    startedByUs := true
    hasOutputChannel := true }

/-- `startReanalyzeServer` from `commands.ts`.  If the socket file exists:
return the registry entry unchanged when there is one, else adopt the
externally started server (`startedByUs := false`, no process).  Otherwise
spawn `binaryPath reanalyze-server` with the root as working directory;
without a pid report failure (`none`); else register an owned handle and
poll for the socket (`socketAppears` says whether it shows up within the
3-second ceiling — the handle is returned either way). -/
def startReanalyzeServer (w : RegistryWorld) (monorepoRoot binaryPath : String)
    (socketAppears spawnYieldsPid : Bool) :
    Option ReanalyzeServerState × RegistryWorld :=
  if isServerRunning w monorepoRoot then
    match lookupServer w.registry monorepoRoot with
    | some existing => (some existing, w)
    | none =>
      (some (adoptedState monorepoRoot),
        { w with registry := setServer w.registry monorepoRoot (adoptedState monorepoRoot) })
  else if spawnYieldsPid then
    (some (ownedState monorepoRoot w.nextPid),
      { registry := setServer w.registry monorepoRoot (ownedState monorepoRoot w.nextPid)
        socketFiles :=
          if socketAppears then getSocketPath monorepoRoot :: w.socketFiles
          else w.socketFiles
        nextPid := w.nextPid + 1
        spawnLog := w.spawnLog ++ [(binaryPath, monorepoRoot)] })
  else
    (none, { w with spawnLog := w.spawnLog ++ [(binaryPath, monorepoRoot)] })

/-- `cleanupSocketFile` from `commands.ts`: best-effort unlink. -/
def cleanupSocketFile (socketFiles : List String) (socketPath : String) : List String :=
  socketFiles.filter (fun p => ¬ p = socketPath)

/-- `stopReanalyzeServer` from `commands.ts`.  Also returns the pids of
the processes killed by the call. -/
def stopReanalyzeServer (w : RegistryWorld) (monorepoRoot : Option String) :
    RegistryWorld × List Nat :=
  match monorepoRoot with
  | none => (w, [])
  | some root =>
    match lookupServer w.registry root with
    | none => (w, [])
    | some state =>
      if state.startedByUs ∧ state.process.isSome then
        ({ w with
            registry := deleteServer w.registry root
            socketFiles := cleanupSocketFile w.socketFiles state.socketPath },
          state.process.toList)
      else
        ({ w with registry := deleteServer w.registry root }, [])

/-- One iteration of the `stopAllReanalyzeServers` loop. -/
def stopAllStep (acc : RegistryWorld × List Nat) (e : String × ReanalyzeServerState) :
    RegistryWorld × List Nat :=
  if e.2.startedByUs ∧ e.2.process.isSome then
    ({ acc.1 with socketFiles := cleanupSocketFile acc.1.socketFiles e.2.socketPath },
      acc.2 ++ e.2.process.toList)
  else
    acc

/-- `stopAllReanalyzeServers` from `commands.ts`: kill every owned
process, clean its socket file, then clear the registry.  Also returns
the pids killed. -/
def stopAllReanalyzeServers (w : RegistryWorld) : RegistryWorld × List Nat :=
  let r := w.registry.foldl stopAllStep (w, [])
  ({ r.1 with registry := [] }, r.2)

theorem find?_map_replace (root : String) (s : ReanalyzeServerState) :
    ∀ reg : List (String × ReanalyzeServerState),
      reg.any (fun e => e.1 == root) = true →
      (reg.map (fun e => if e.1 == root then (root, s) else e)).find?
          (fun e => e.1 == root) = some (root, s) := by
  intro reg
  induction reg with
  | nil => simp
  | cons e t ih =>
    intro h
    by_cases he : (e.1 == root) = true
    · have hhead : (if (e.1 == root) = true then (root, s) else e) = (root, s) := by
        simp [he]
      rw [List.map_cons, hhead, List.find?_cons_of_pos _ (by simp)]
    · have hhead : (if (e.1 == root) = true then (root, s) else e) = e := by
        simp [he]
      rw [List.any_cons] at h
      simp only [Bool.or_eq_true] at h
      rw [List.map_cons, hhead, List.find?]
      simp only [Bool.not_eq_true] at he
      rw [he]
      exact ih (h.resolve_left (by simp [he]))

theorem lookupServer_setServer_self (reg : List (String × ReanalyzeServerState))
    (root : String) (s : ReanalyzeServerState) :
    lookupServer (setServer reg root s) root = some s := by
  unfold lookupServer setServer
  by_cases h : reg.any (fun e => e.1 == root) = true
  · rw [if_pos h, find?_map_replace root s reg h]
    rfl
  · rw [if_neg h]
    have hnone : reg.find? (fun e => e.1 == root) = none := by
      rw [List.find?_eq_none]
      intro x hx hpx
      exact h (List.any_eq_true.mpr ⟨x, hx, hpx⟩)
    simp [List.find?_append, hnone]

/-- C1 (amended): if the control-socket file for the root exists when the
second call begins — it existed already, or the server spawned by the
first call created it within the polling window — then the second of two
back-to-back `startReanalyzeServer` calls for the same root returns
exactly the handle the first call produced, changes nothing, and the two
calls together spawn at most one process. -/
theorem startReanalyzeServer_idempotent (w : RegistryWorld) (root bin : String)
    (a1 s1 a2 s2 : Bool)
    (hsock : isServerRunning (startReanalyzeServer w root bin a1 s1).2 root = true) :
    (startReanalyzeServer (startReanalyzeServer w root bin a1 s1).2 root bin a2 s2).1
        = (startReanalyzeServer w root bin a1 s1).1 ∧
    (startReanalyzeServer (startReanalyzeServer w root bin a1 s1).2 root bin a2 s2).2
        = (startReanalyzeServer w root bin a1 s1).2 ∧
    (startReanalyzeServer (startReanalyzeServer w root bin a1 s1).2 root bin a2 s2).2.spawnLog.length
        ≤ w.spawnLog.length + 1 := by
  by_cases hrun : isServerRunning w root = true
  · rcases hlk : lookupServer w.registry root with _ | ex
    · -- socket present, no registry entry: the first call adopts the server.
      have h1 : startReanalyzeServer w root bin a1 s1 =
          (some (adoptedState root),
            { w with registry := setServer w.registry root (adoptedState root) }) := by
        rw [startReanalyzeServer, if_pos hrun, hlk]
      rw [h1]
      have hrun2 : isServerRunning
          { w with registry := setServer w.registry root (adoptedState root) } root
          = true := hrun
      rw [startReanalyzeServer, if_pos hrun2]
      simp [lookupServer_setServer_self]
    · -- socket present and a registry entry: both calls return it unchanged.
      have h1 : startReanalyzeServer w root bin a1 s1 = (some ex, w) := by
        rw [startReanalyzeServer, if_pos hrun, hlk]
      rw [h1]
      rw [startReanalyzeServer, if_pos hrun, hlk]
      simp
  · -- no socket: the first call spawns.
    cases s1 with
    | false =>
      -- spawn yielded no pid: no socket file was created, contradiction.
      exfalso
      have h1 : (startReanalyzeServer w root bin a1 false).2 =
          { w with spawnLog := w.spawnLog ++ [(bin, root)] } := by
        rw [startReanalyzeServer, if_neg hrun]
        rfl
      rw [h1] at hsock
      exact hrun hsock
    | true =>
      cases a1 with
      | false =>
        -- the socket never appeared: contradiction with `hsock`.
        exfalso
        have h1 : (startReanalyzeServer w root bin false true).2.socketFiles
            = w.socketFiles := by
          rw [startReanalyzeServer, if_neg hrun]
          rfl
        unfold isServerRunning at hsock hrun
        rw [h1] at hsock
        exact hrun hsock
      | true =>
        have h1 : startReanalyzeServer w root bin true true =
            (some (ownedState root w.nextPid),
              { registry := setServer w.registry root (ownedState root w.nextPid)
                socketFiles := getSocketPath root :: w.socketFiles
                nextPid := w.nextPid + 1
                spawnLog := w.spawnLog ++ [(bin, root)] }) := by
          rw [startReanalyzeServer, if_neg hrun]
          rfl
        rw [h1]
        have hrun2 : isServerRunning
            { registry := setServer w.registry root (ownedState root w.nextPid)
              socketFiles := getSocketPath root :: w.socketFiles
              nextPid := w.nextPid + 1
              spawnLog := w.spawnLog ++ [(bin, root)] } root = true := by
          unfold isServerRunning
          simp
        rw [startReanalyzeServer, if_pos hrun2]
        simp [lookupServer_setServer_self]

/-- C1 witness: with the socket file already on disk and an empty
registry, two back-to-back calls return the same adopted handle. -/
theorem startReanalyzeServer_idempotent_witness :
    (startReanalyzeServer
        (startReanalyzeServer
          { registry := [], socketFiles := ["/repo/.rescript-reanalyze.sock"],
            nextPid := 0, spawnLog := [] } "/repo" "/bin/rescript-tools" false true).2
        "/repo" "/bin/rescript-tools" false true).1
      = (startReanalyzeServer
          { registry := [], socketFiles := ["/repo/.rescript-reanalyze.sock"],
            nextPid := 0, spawnLog := [] } "/repo" "/bin/rescript-tools" false true).1 :=
  (startReanalyzeServer_idempotent
    { registry := [], socketFiles := ["/repo/.rescript-reanalyze.sock"],
      nextPid := 0, spawnLog := [] } "/repo" "/bin/rescript-tools"
    false true false true (by decide)).1

/-- C1 counterexample: starting from an empty world whose server never
manages to create its socket file, two back-to-back calls return two
distinct handles (different pids) and spawn two processes, refuting the
unconditional claim. -/
theorem startReanalyzeServer_double_spawn :
    (startReanalyzeServer
        (startReanalyzeServer
          { registry := [], socketFiles := [], nextPid := 0, spawnLog := [] }
          "/repo" "/bin/rescript-tools" false true).2
        "/repo" "/bin/rescript-tools" false true).1
      ≠ (startReanalyzeServer
          { registry := [], socketFiles := [], nextPid := 0, spawnLog := [] }
          "/repo" "/bin/rescript-tools" false true).1 ∧
    (startReanalyzeServer
        (startReanalyzeServer
          { registry := [], socketFiles := [], nextPid := 0, spawnLog := [] }
          "/repo" "/bin/rescript-tools" false true).2
        "/repo" "/bin/rescript-tools" false true).2.spawnLog.length = 2 := by
  decide

theorem stopReanalyzeServer_lookup_none (w : RegistryWorld) (root : String)
    (h : lookupServer w.registry root = none) :
    stopReanalyzeServer w (some root) = (w, []) := by
  rw [stopReanalyzeServer, h]

theorem stopReanalyzeServer_lookup_some (w : RegistryWorld) (root : String)
    (st : ReanalyzeServerState) (h : lookupServer w.registry root = some st) :
    stopReanalyzeServer w (some root)
      = if st.startedByUs ∧ st.process.isSome then
          ({ w with
              registry := deleteServer w.registry root
              socketFiles := cleanupSocketFile w.socketFiles st.socketPath },
            st.process.toList)
        else
          ({ w with registry := deleteServer w.registry root }, []) := by
  rw [stopReanalyzeServer, h]

/-- The pids the `stopAllReanalyzeServers` loop kills are exactly the
processes of the owned entries. -/
theorem stopAll_foldl_killed :
    ∀ (l : List (String × ReanalyzeServerState)) (acc : RegistryWorld × List Nat),
      (l.foldl stopAllStep acc).2
        = acc.2 ++ l.filterMap
            (fun e => if e.2.startedByUs ∧ e.2.process.isSome then e.2.process else none) := by
  intro l
  induction l with
  | nil => simp
  | cons e t ih =>
    intro acc
    rw [List.foldl_cons, ih, List.filterMap_cons]
    by_cases howned : e.2.startedByUs ∧ e.2.process.isSome
    · rcases hp : e.2.process with _ | pid
      · rw [hp] at howned
        simp at howned
      · simp [stopAllStep, howned, hp]
    · simp [stopAllStep, howned]

/-- C2: ownership is respected.  Killed pids always come from registry
entries with `startedByUs = true` (for `stopReanalyzeServer` at any root
and for `stopAllReanalyzeServers`); and when the control-socket file for
`root` exists before any call, the first `startReanalyzeServer` adopts the
external server with `startedByUs = false` and no process reference, and
`stopReanalyzeServer root` on the world it leaves kills no process and
leaves the socket files untouched. -/
theorem stop_never_kills_unowned (w : RegistryWorld) (root bin r2 : String)
    (a sp : Bool)
    (hsock : isServerRunning w root = true)
    (hnone : lookupServer w.registry root = none) :
    ((startReanalyzeServer w root bin a sp).1 = some (adoptedState root) ∧
      (adoptedState root).startedByUs = false ∧
      (adoptedState root).process = none ∧
      (stopReanalyzeServer (startReanalyzeServer w root bin a sp).2 (some root)).2 = [] ∧
      (stopReanalyzeServer (startReanalyzeServer w root bin a sp).2 (some root)).1.socketFiles
        = (startReanalyzeServer w root bin a sp).2.socketFiles) ∧
    (∀ pid ∈ (stopReanalyzeServer w (some r2)).2,
      ∃ e ∈ w.registry, e.2.startedByUs = true ∧ e.2.process = some pid) ∧
    (∀ pid ∈ (stopAllReanalyzeServers w).2,
      ∃ e ∈ w.registry, e.2.startedByUs = true ∧ e.2.process = some pid) := by
  refine ⟨?_, ?_, ?_⟩
  · have h1 : startReanalyzeServer w root bin a sp =
        (some (adoptedState root),
          { w with registry := setServer w.registry root (adoptedState root) }) := by
      rw [startReanalyzeServer, if_pos hsock, hnone]
    rw [h1]
    have h2 : stopReanalyzeServer
        { w with registry := setServer w.registry root (adoptedState root) } (some root) =
        ({ w with registry := deleteServer (setServer w.registry root (adoptedState root)) root },
          []) := by
      rw [stopReanalyzeServer, lookupServer_setServer_self]
      rfl
    rw [h2]
    exact ⟨rfl, rfl, rfl, rfl, rfl⟩
  · intro pid hpid
    rcases hlk : lookupServer w.registry r2 with _ | st
    · rw [stopReanalyzeServer_lookup_none w r2 hlk] at hpid
      simp at hpid
    · rw [stopReanalyzeServer_lookup_some w r2 st hlk] at hpid
      by_cases howned : st.startedByUs ∧ st.process.isSome
      · rw [if_pos howned] at hpid
        rcases hp : st.process with _ | q
        · rw [hp] at howned
          simp at howned
        · rw [hp] at hpid
          simp at hpid
          subst hpid
          have hmem : ∃ e ∈ w.registry, e.2 = st := by
            unfold lookupServer at hlk
            rcases hfind : w.registry.find? (fun e => e.1 == r2) with _ | e0
            · rw [hfind] at hlk
              simp at hlk
            · rw [hfind] at hlk
              simp at hlk
              exact ⟨e0, List.mem_of_find?_eq_some hfind, hlk⟩
          obtain ⟨e0, he0, he0st⟩ := hmem
          exact ⟨e0, he0, by rw [he0st]; exact howned.1, by rw [he0st]; exact hp⟩
      · rw [if_neg howned] at hpid
        simp at hpid
  · intro pid hpid
    rw [stopAllReanalyzeServers] at hpid
    simp only at hpid
    rw [stopAll_foldl_killed w.registry (w, [])] at hpid
    simp only [List.nil_append] at hpid
    rw [List.mem_filterMap] at hpid
    obtain ⟨e, he, hfe⟩ := hpid
    by_cases howned : e.2.startedByUs ∧ e.2.process.isSome
    · rw [if_pos howned] at hfe
      exact ⟨e, he, howned.1, hfe⟩
    · rw [if_neg howned] at hfe
      cases hfe

/-- C2 witness: a world holding only an adopted (externally started)
server; stopping it kills nothing and leaves the socket file on disk. -/
theorem stop_never_kills_unowned_witness :
    (stopReanalyzeServer
        (startReanalyzeServer
          { registry := [], socketFiles := ["/repo/.rescript-reanalyze.sock"],
            nextPid := 0, spawnLog := [] } "/repo" "/bin/rescript-tools" false true).2
        (some "/repo")).2 = [] ∧
    (stopReanalyzeServer
        (startReanalyzeServer
          { registry := [], socketFiles := ["/repo/.rescript-reanalyze.sock"],
            nextPid := 0, spawnLog := [] } "/repo" "/bin/rescript-tools" false true).2
        (some "/repo")).1.socketFiles
      = (startReanalyzeServer
          { registry := [], socketFiles := ["/repo/.rescript-reanalyze.sock"],
            nextPid := 0, spawnLog := [] } "/repo" "/bin/rescript-tools" false true).2.socketFiles := by
  obtain ⟨⟨-, -, -, h4, h5⟩, -, -⟩ := stop_never_kills_unowned
    { registry := [], socketFiles := ["/repo/.rescript-reanalyze.sock"],
      nextPid := 0, spawnLog := [] } "/repo" "/bin/rescript-tools" "/other"
    false true (by decide) (by decide)
  exact ⟨h4, h5⟩

/-! ## AnalysisRunner output format and DiagnosticsReconciler
(`DiagnosticsResultFormat`, `classifyMessage`, `resultsToDiagnostics` and
the `p.on("close", ...)` handler of `runCodeAnalysisWithReanalyze` in
`src/client/src/commands.ts`)

File paths stay strings here (`item.file`); `Uri.parse` / `uri.fsPath`
are the identity on them.  The `vscode` `Map`-backed containers are
association lists with the JavaScript `Map` get/set/push semantics. -/

/-- A position as handed to the `vscode` `Position` constructor.  Line
and character are `Int` because reanalyze reports `-1` as a whole-file
sentinel line. -/
structure VPosition where
  line : Int
  character : Int
deriving DecidableEq, Repr

/-- A `vscode` `Range`: start and end positions. -/
structure VRange where
  start : VPosition
  stop : VPosition
deriving DecidableEq, Repr

/-- `vscode.DiagnosticSeverity`. -/
inductive VSeverity where
  | error
  | warning
  | information
  | hint
deriving DecidableEq, Repr

/-- A `vscode` `Diagnostic` as constructed by `resultsToDiagnostics`. -/
structure Diagnostic where
  range : VRange
  message : String
  severity : VSeverity
deriving DecidableEq, Repr

/-- The `annotate` field of a result item. -/
structure Annotate where
  line : Int
  character : Int
  text : String
  action : String
deriving DecidableEq, Repr

/-- The four-integer `range` array of a result item,
`[startLine, startCharacter, endLine, endCharacter]`. -/
structure Range4 where
  startLine : Int
  startCharacter : Int
  endLine : Int
  endCharacter : Int
deriving DecidableEq, Repr

/-- One element of `DiagnosticsResultFormat` from `commands.ts`. -/
structure ResultItem where
  name : String
  kind : String
  file : String
  range : Range4
  message : String
  annotate : Option Annotate
deriving DecidableEq, Repr

/-- The edit carried by a quick-fix action
(`WorkspaceEdit.replace(uri, range, text)`). -/
structure WorkspaceEditModel where
  file : String
  editRange : VRange
  newText : String
deriving DecidableEq, Repr

/-- A `vscode` `CodeAction` as constructed by `resultsToDiagnostics`:
always `CodeActionKind.RefactorRewrite`, one workspace edit, and — for
the Delete fix only — the `rescript-vscode.clear_diagnostic` command
carrying the diagnostic to clear. -/
structure CodeActionModel where
  title : String
  edit : WorkspaceEditModel
  clearDiagnosticCommand : Option Diagnostic
deriving DecidableEq, Repr

/-- One element of a `DiagnosticsResultCodeActionsMap` bucket:
the issue range the action is indexed under, and the action. -/
structure CodeActionEntry where
  range : VRange
  codeAction : CodeActionModel
deriving DecidableEq, Repr

/-- The diagnostics grouping built by `resultsToDiagnostics`
(`Map<string, Diagnostic[]>`). -/
abbrev DiagMap := List (String × List Diagnostic)

/-- `DiagnosticsResultCodeActionsMap` (`Map<string, {range, codeAction}[]>`). -/
abbrev ActionsMap := List (String × List CodeActionEntry)

/-- JavaScript `map.get(k)` followed by `?? []`: the bucket currently
stored under `k`, empty when absent. -/
def entriesAt {α : Type} (m : List (String × List α)) (k : String) : List α :=
  ((m.find? (fun e => e.1 == k)).map (·.2)).getD []

/-- JavaScript `map.has(k)`. -/
def hasKeyB {α : Type} (m : List (String × α)) (k : String) : Bool :=
  m.any (fun e => e.1 == k)

/-- The `if map.has(k) then map.get(k).push(x) else map.set(k, [x])`
idiom of `resultsToDiagnostics`. -/
def pushEntry {α : Type} (m : List (String × List α)) (k : String) (x : α) :
    List (String × List α) :=
  if m.any (fun e => e.1 == k) then
    m.map (fun e => if e.1 == k then (e.1, e.2 ++ [x]) else e)
  else
    m ++ [(k, [x])]

/-- JavaScript `map.set(k, v)`: replace the entry or append it. -/
def setEntry {α : Type} (m : List (String × α)) (k : String) (v : α) :
    List (String × α) :=
  if m.any (fun e => e.1 == k) then
    m.map (fun e => if e.1 == k then (k, v) else e)
  else
    m ++ [(k, v)]

/-- JavaScript `s.toLowerCase()` (ASCII; the category names compared are
ASCII), computed on the character list. -/
def jsToLowerCase (s : String) : String := ⟨s.data.map Char.toLower⟩

/-- JavaScript `s.trim()`: strip whitespace from both ends, computed on
the character list. -/
def jsTrim (s : String) : String :=
  ⟨((s.data.dropWhile Char.isWhitespace).reverse.dropWhile Char.isWhitespace).reverse⟩

/-- JavaScript `s.endsWith(suffix)`, computed on the character lists. -/
def jsEndsWith (s sfx : String) : Bool := sfx.data.isSuffixOf s.data

/-- JavaScript `hay.includes(pat)`: substring containment. -/
def strIncludes (hay pat : String) : Bool :=
  step pat.toList hay.toList
where
  step (pat : List Char) : List Char → Bool
    | [] => pat.isEmpty
    | c :: rest => pat.isPrefixOf (c :: rest) || step pat rest

/-- The suppression test at the heart of `resultsToDiagnostics`:
`item.name.toLowerCase().includes("unused argument")`. -/
def suppressedItem (item : ResultItem) : Bool :=
  strIncludes (jsToLowerCase item.name) "unused argument"

/-- `ClassifiedMessage` from `commands.ts`. -/
inductive ClassifiedMessage where
  | Removable
  | Default
deriving DecidableEq, Repr

/-- `classifyMessage` from `commands.ts`. -/
def classifyMessage (msg : String) : ClassifiedMessage :=
  if jsEndsWith msg " is never used"
      || jsEndsWith msg " is never used and could have side effects"
      || jsEndsWith msg " has no side effects and can be removed" then
    ClassifiedMessage.Removable
  else
    ClassifiedMessage.Default

/-- The raw reported range of an item,
`Range(Position(r[0], r[1]), Position(r[2], r[3]))`. -/
def rawRange (item : ResultItem) : VRange :=
  { start := { line := item.range.startLine, character := item.range.startCharacter }
    stop := { line := item.range.endLine, character := item.range.endCharacter } }

/-- `issueLocationRange` of `resultsToDiagnostics`: a negative start or
end line means "whole file" and is normalized to `(0,0)-(99999,0)`. -/
def issueLocationRange (item : ResultItem) : VRange :=
  if item.range.startLine < 0 || item.range.endLine < 0 then
    { start := { line := 0, character := 0 }, stop := { line := 99999, character := 0 } }
  else
    rawRange item

/-- The `Diagnostic` constructed for an item: normalized range, trimmed
message, severity Warning. -/
def diagnosticOfItem (item : ResultItem) : Diagnostic :=
  { range := issueLocationRange item
    message := jsTrim item.message
    severity := VSeverity.warning }

/-- The refactor action built from `item.annotate`: replace at the single
point `(line, character)` with `text`, titled by `action`. -/
def annotateCodeAction (item : ResultItem) (ann : Annotate) : CodeActionModel :=
  { title := ann.action
    edit := { file := item.file
              editRange := { start := { line := ann.line, character := ann.character }
                             stop := { line := ann.line, character := ann.character } }
              newText := ann.text }
    clearDiagnosticCommand := none }

/-- The "Remove unused" Delete action: replace the raw reported range by
the empty string, and trigger `rescript-vscode.clear_diagnostic` on the
item's diagnostic. -/
def removeCodeAction (item : ResultItem) (diag : Diagnostic) : CodeActionModel :=
  { title := "Remove unused"
    edit := { file := item.file
              editRange := rawRange item
              newText := "" }
    clearDiagnosticCommand := some diag }

/-- The quick-fix half of the `results.forEach` loop body: push the
`annotate` action (if any), then the Delete action (if the message is
removable), both indexed under `item.file` by the issue range. -/
def actionsAfterItem (am : ActionsMap) (item : ResultItem) : ActionsMap :=
  let am1 :=
    match item.annotate with
    | some ann =>
      pushEntry am item.file
        { range := issueLocationRange item, codeAction := annotateCodeAction item ann }
    | none => am
  if classifyMessage item.message = ClassifiedMessage.Removable then
    pushEntry am1 item.file
      { range := issueLocationRange item
        codeAction := removeCodeAction item (diagnosticOfItem item) }
  else
    am1

/-- The quick-fix entries one retained item contributes: zero or one
replacement fix from `annotate`, then one Delete fix when the message is
removable. -/
def itemActionEntries (item : ResultItem) : List CodeActionEntry :=
  (match item.annotate with
   | some ann => [{ range := issueLocationRange item, codeAction := annotateCodeAction item ann }]
   | none => [])
  ++ (if classifyMessage item.message = ClassifiedMessage.Removable then
        [{ range := issueLocationRange item
           codeAction := removeCodeAction item (diagnosticOfItem item) }]
      else [])

/-- The body of the `results.forEach` loop of `resultsToDiagnostics`:
skip suppressed items entirely (the `return` fires before any map is
touched), otherwise record the diagnostic and the quick-fix actions. -/
def processItem (acc : DiagMap × ActionsMap) (item : ResultItem) :
    DiagMap × ActionsMap :=
  if suppressedItem item then
    acc
  else
    (pushEntry acc.1 item.file (diagnosticOfItem item),
      actionsAfterItem acc.2 item)

/-- `resultsToDiagnostics` from `commands.ts`: fold the loop body over
the result items, starting from an empty grouping and the given (already
cleared by the close handler) actions map. -/
def resultsToDiagnostics (results : List ResultItem) (actionsInit : ActionsMap) :
    DiagMap × ActionsMap :=
  results.foldl processItem ([], actionsInit)

/-- `opts` of `runCodeAnalysisWithReanalyze`. -/
def analysisOpts : List String := ["reanalyze", "-json"]

/-- The reproduction line logged when parsing reanalyze output fails:
exact command line (binary plus `opts.join(" ")`) and working
directory. -/
def reproLogLine (binaryPath monorepoRootPath : String) : String :=
  "> To reproduce, run \"" ++ binaryPath ++ " " ++ String.intercalate " " analysisOpts
    ++ "\" in directory: \"" ++ monorepoRootPath ++ "\""

/-- The observable outcome of the `p.on("close", ...)` handler. -/
structure AnalysisCloseResult where
  /-- `diagnosticsCollection` after the handler ran -/
  collection : List (String × List Diagnostic)
  /-- `diagnosticsResultCodeActions` after the handler ran -/
  codeActions : ActionsMap
  /-- `statusBarItem.setToFailed` was called -/
  statusFailed : Bool
  /-- `statusBarItem.setToStopText` was called -/
  statusStop : Bool
  /-- lines appended to the output channel -/
  logLines : List String
  /-- uris passed to `diagnosticsCollection.delete` -/
  clearedUris : List String
deriving DecidableEq, Repr

/-- The `p.on("close", ...)` handler of `runCodeAnalysisWithReanalyze`.
`json` is the result of `JSON.parse` on the accumulated stdout (`none`
when parsing threw).  The actions map is cleared first in every case.
On parse failure: log the bug-report instructions with the exact repro
command, clear the whole diagnostics collection, set the failed status.
On success: group results, delete every collection entry whose uri has no
bucket in the new grouping, then set each grouped bucket. -/
def onCloseReanalyze (json : Option (List ResultItem))
    (previousCollection : List (String × List Diagnostic))
    (binaryPath monorepoRootPath : String) : AnalysisCloseResult :=
  match json with
  | none =>
    { collection := []
      codeActions := []
      statusFailed := true
      statusStop := false
      logLines :=
        ["\n\n>>>>",
          "Parsing JSON from reanalyze failed. The raw, invalid JSON can be reproduced by following the instructions below. Please run that command and report the issue + failing JSON on the extension bug tracker: https://github.com/rescript-lang/rescript-vscode/issues",
          reproLogLine binaryPath monorepoRootPath,
          "\n"]
      -- `diagnosticsCollection.clear()` empties the collection wholesale;
      -- no per-uri `delete` calls are made on this path.
      clearedUris := [] }
  | some results =>
    let r := resultsToDiagnostics results []
    { collection :=
        r.1.foldl (fun c q => setEntry c q.1 q.2)
          (previousCollection.filter (fun e => hasKeyB r.1 e.1))
      codeActions := r.2
      statusFailed := false
      statusStop := true
      logLines := []
      clearedUris :=
        (previousCollection.filter (fun e => ¬ hasKeyB r.1 e.1)).map (·.1) }

/-! Association-list bookkeeping lemmas for the `Map` semantics. -/

theorem find?_pushEntry_map {α : Type} (k q : String) (x : α) :
    ∀ m : List (String × List α),
      (m.map (fun e => if e.1 == k then (e.1, e.2 ++ [x]) else e)).find? (fun e => e.1 == q)
        = (m.find? (fun e => e.1 == q)).map
            (fun e => if e.1 == k then (e.1, e.2 ++ [x]) else e) := by
  intro m
  induction m with
  | nil => rfl
  | cons e t ih =>
    have hkey : (if (e.1 == k) = true then (e.1, e.2 ++ [x]) else e).1 = e.1 := by
      by_cases hek : (e.1 == k) = true
      · rw [if_pos hek]
      · rw [if_neg hek]
    have hscr : ((if (e.1 == k) = true then (e.1, e.2 ++ [x]) else e).1 == q) = (e.1 == q) := by
      rw [hkey]
    rw [List.map_cons, List.find?_cons, List.find?_cons, hscr]
    by_cases he : (e.1 == q) = true
    · rw [he]
      rfl
    · rw [Bool.not_eq_true] at he
      rw [he]
      exact ih

theorem entriesAt_pushEntry_self {α : Type} (m : List (String × List α)) (k : String) (x : α) :
    entriesAt (pushEntry m k x) k = entriesAt m k ++ [x] := by
  unfold entriesAt pushEntry
  by_cases h : m.any (fun e => e.1 == k) = true
  · rw [if_pos h, find?_pushEntry_map]
    rcases hf : m.find? (fun e => e.1 == k) with _ | e0
    · exfalso
      rw [List.find?_eq_none] at hf
      obtain ⟨y, hy, hp⟩ := List.any_eq_true.mp h
      exact hf y hy hp
    · have he0 := List.find?_some hf
      rw [hf]
      simp [he0, eq_of_beq he0]
  · rw [if_neg h]
    have hnone : m.find? (fun e => e.1 == k) = none := by
      rw [List.find?_eq_none]
      intro y hy hp
      exact h (List.any_eq_true.mpr ⟨y, hy, hp⟩)
    simp [List.find?_append, hnone]

theorem entriesAt_pushEntry_ne {α : Type} (m : List (String × List α)) (k q : String) (x : α)
    (hne : ¬ q = k) :
    entriesAt (pushEntry m k x) q = entriesAt m q := by
  unfold entriesAt pushEntry
  by_cases h : m.any (fun e => e.1 == k) = true
  · rw [if_pos h, find?_pushEntry_map]
    rcases hf : m.find? (fun e => e.1 == q) with _ | e0
    · rw [hf]
      rfl
    · have he0 := List.find?_some hf
      have he0q : e0.1 = q := by
        simpa using he0
      have he0k : (e0.1 == k) = false := by
        rw [beq_eq_false_iff_ne, he0q]
        exact hne
      rw [hf]
      simp [he0k, beq_eq_false_iff_ne.mp he0k]
  · rw [if_neg h]
    have hkq : (k == q) = false := by
      rw [beq_eq_false_iff_ne]
      intro hh
      exact hne hh.symm
    have hlast : ([(k, [x])].find? (fun e => e.1 == q)) = none := by
      simp [List.find?_cons, hkq]
    simp [List.find?_append, hlast]

theorem find?_setEntry_map {α : Type} (k q : String) (v : α) :
    ∀ m : List (String × α),
      (m.map (fun e => if e.1 == k then (k, v) else e)).find? (fun e => e.1 == q)
        = (m.find? (fun e => e.1 == q)).map (fun e => if e.1 == k then (k, v) else e) := by
  intro m
  induction m with
  | nil => rfl
  | cons e t ih =>
    have hkey : (if (e.1 == k) = true then (k, v) else e).1 = e.1 := by
      by_cases hek : (e.1 == k) = true
      · rw [if_pos hek]
        exact (eq_of_beq hek).symm
      · rw [if_neg hek]
    have hscr : ((if (e.1 == k) = true then (k, v) else e).1 == q) = (e.1 == q) := by
      rw [hkey]
    rw [List.map_cons, List.find?_cons, List.find?_cons, hscr]
    by_cases he : (e.1 == q) = true
    · rw [he]
      rfl
    · rw [Bool.not_eq_true] at he
      rw [he]
      exact ih

theorem entriesAt_setEntry_self {α : Type} (m : List (String × List α)) (k : String)
    (v : List α) :
    entriesAt (setEntry m k v) k = v := by
  unfold entriesAt setEntry
  by_cases h : m.any (fun e => e.1 == k) = true
  · rw [if_pos h, find?_setEntry_map]
    rcases hf : m.find? (fun e => e.1 == k) with _ | e0
    · exfalso
      rw [List.find?_eq_none] at hf
      obtain ⟨y, hy, hp⟩ := List.any_eq_true.mp h
      exact hf y hy hp
    · have he0 := List.find?_some hf
      rw [hf]
      simp [he0, eq_of_beq he0]
  · rw [if_neg h]
    have hnone : m.find? (fun e => e.1 == k) = none := by
      rw [List.find?_eq_none]
      intro y hy hp
      exact h (List.any_eq_true.mpr ⟨y, hy, hp⟩)
    simp [List.find?_append, hnone]

theorem entriesAt_setEntry_ne {α : Type} (m : List (String × List α)) (k q : String)
    (v : List α) (hne : ¬ q = k) :
    entriesAt (setEntry m k v) q = entriesAt m q := by
  unfold entriesAt setEntry
  by_cases h : m.any (fun e => e.1 == k) = true
  · rw [if_pos h, find?_setEntry_map]
    rcases hf : m.find? (fun e => e.1 == q) with _ | e0
    · rw [hf]
      rfl
    · have he0 := List.find?_some hf
      have he0q : e0.1 = q := by
        simpa using he0
      have he0k : (e0.1 == k) = false := by
        rw [beq_eq_false_iff_ne, he0q]
        exact hne
      rw [hf]
      simp [he0k, beq_eq_false_iff_ne.mp he0k]
  · rw [if_neg h]
    have hkq : (k == q) = false := by
      rw [beq_eq_false_iff_ne]
      intro hh
      exact hne hh.symm
    have hlast : ([(k, v)].find? (fun e => e.1 == q)) = none := by
      simp [List.find?_cons, hkq]
    simp [List.find?_append, hlast]

/-- C3: when the accumulated stdout fails to parse (`JSON.parse` threw),
the close handler leaves an empty published diagnostics state — both the
previously published collection and the quick-fix actions index are
cleared — signals failure through the status bar, and appends to the log
sink the reproduction line holding the exact command line and working
directory. -/
theorem malformed_output_recovery (prev : List (String × List Diagnostic))
    (binaryPath monorepoRootPath : String) :
    (onCloseReanalyze none prev binaryPath monorepoRootPath).collection = [] ∧
    (∀ f, entriesAt (onCloseReanalyze none prev binaryPath monorepoRootPath).collection f = []) ∧
    (onCloseReanalyze none prev binaryPath monorepoRootPath).codeActions = [] ∧
    (onCloseReanalyze none prev binaryPath monorepoRootPath).statusFailed = true ∧
    reproLogLine binaryPath monorepoRootPath
      ∈ (onCloseReanalyze none prev binaryPath monorepoRootPath).logLines := by
  refine ⟨rfl, fun f => rfl, rfl, rfl, ?_⟩
  simp [onCloseReanalyze]

/-- C7: a result item whose category text (`item.name`) contains
"unused argument" case-insensitively is skipped before any state is
touched: the loop body is the identity on the accumulator, so the item
contributes neither a diagnostic nor a quick-fix action to any run that
includes it. -/
theorem unused_argument_suppressed (item : ResultItem)
    (h : suppressedItem item = true) :
    (∀ acc, processItem acc item = acc) ∧
    (∀ (l1 l2 : List ResultItem) (actionsInit : ActionsMap),
      resultsToDiagnostics (l1 ++ item :: l2) actionsInit
        = resultsToDiagnostics (l1 ++ l2) actionsInit) := by
  have hid : ∀ acc : DiagMap × ActionsMap, processItem acc item = acc := by
    intro acc
    unfold processItem
    rw [if_pos h]
  refine ⟨hid, ?_⟩
  intro l1 l2 init
  unfold resultsToDiagnostics
  rw [List.foldl_append, List.foldl_append, List.foldl_cons, hid]

/-- C7 witness: a concrete "unused argument" item (whose message even
matches a removable phrasing) leaves an empty accumulator empty. -/
theorem unused_argument_suppressed_witness :
    processItem ([], [])
      { name := "Warning Unused Argument"
        kind := "warning"
        file := "/repo/src/A.res"
        range := { startLine := 1, startCharacter := 0, endLine := 1, endCharacter := 5 }
        message := "optional argument x is never used"
        annotate := none }
      = (([], []) : DiagMap × ActionsMap) :=
  (unused_argument_suppressed
      { name := "Warning Unused Argument"
        kind := "warning"
        file := "/repo/src/A.res"
        range := { startLine := 1, startCharacter := 0, endLine := 1, endCharacter := 5 }
        message := "optional argument x is never used"
        annotate := none }
      (by decide)).1 ([], [])

theorem mem_entriesAt_pushEntry {α : Type} (m : List (String × List α)) (k f : String)
    (x a : α) (h : a ∈ entriesAt m f) : a ∈ entriesAt (pushEntry m k x) f := by
  by_cases hf : f = k
  · subst hf
    rw [entriesAt_pushEntry_self]
    exact List.mem_append_left _ h
  · rw [entriesAt_pushEntry_ne m k f x hf]
    exact h

theorem entriesAt_actionsAfterItem_self (am : ActionsMap) (item : ResultItem) :
    entriesAt (actionsAfterItem am item) item.file
      = entriesAt am item.file ++ itemActionEntries item := by
  unfold actionsAfterItem itemActionEntries
  rcases hann : item.annotate with _ | ann
  · by_cases hc : classifyMessage item.message = ClassifiedMessage.Removable
    · rw [if_pos hc, entriesAt_pushEntry_self]
      simp [hc]
    · rw [if_neg hc]
      simp [hc]
  · by_cases hc : classifyMessage item.message = ClassifiedMessage.Removable
    · rw [if_pos hc, entriesAt_pushEntry_self, entriesAt_pushEntry_self]
      simp [hc]
    · rw [if_neg hc, entriesAt_pushEntry_self]
      simp [hc]

theorem entriesAt_actionsAfterItem_ne (am : ActionsMap) (item : ResultItem) (f : String)
    (hf : ¬ f = item.file) :
    entriesAt (actionsAfterItem am item) f = entriesAt am f := by
  unfold actionsAfterItem
  rcases hann : item.annotate with _ | ann
  · by_cases hc : classifyMessage item.message = ClassifiedMessage.Removable
    · rw [if_pos hc, entriesAt_pushEntry_ne _ _ _ _ hf]
    · rw [if_neg hc]
  · by_cases hc : classifyMessage item.message = ClassifiedMessage.Removable
    · rw [if_pos hc, entriesAt_pushEntry_ne _ _ _ _ hf, entriesAt_pushEntry_ne _ _ _ _ hf]
    · rw [if_neg hc, entriesAt_pushEntry_ne _ _ _ _ hf]

theorem mem_actions_processItem (acc : DiagMap × ActionsMap) (item : ResultItem)
    (f : String) (a : CodeActionEntry) (h : a ∈ entriesAt acc.2 f) :
    a ∈ entriesAt (processItem acc item).2 f := by
  unfold processItem
  by_cases hs : suppressedItem item = true
  · rw [if_pos hs]
    exact h
  · rw [if_neg hs]
    by_cases hf : f = item.file
    · subst hf
      rw [entriesAt_actionsAfterItem_self]
      exact List.mem_append_left _ h
    · rw [entriesAt_actionsAfterItem_ne _ _ _ hf]
      exact h

theorem mem_diags_processItem (acc : DiagMap × ActionsMap) (item : ResultItem)
    (f : String) (a : Diagnostic) (h : a ∈ entriesAt acc.1 f) :
    a ∈ entriesAt (processItem acc item).1 f := by
  unfold processItem
  by_cases hs : suppressedItem item = true
  · rw [if_pos hs]
    exact h
  · rw [if_neg hs]
    exact mem_entriesAt_pushEntry _ _ _ _ _ h

theorem mem_actions_foldl (l : List ResultItem) :
    ∀ (acc : DiagMap × ActionsMap) (f : String) (a : CodeActionEntry),
      a ∈ entriesAt acc.2 f → a ∈ entriesAt (l.foldl processItem acc).2 f := by
  induction l with
  | nil => intro acc f a h; exact h
  | cons it t ih =>
    intro acc f a h
    rw [List.foldl_cons]
    exact ih _ f a (mem_actions_processItem acc it f a h)

theorem mem_diags_foldl (l : List ResultItem) :
    ∀ (acc : DiagMap × ActionsMap) (f : String) (a : Diagnostic),
      a ∈ entriesAt acc.1 f → a ∈ entriesAt (l.foldl processItem acc).1 f := by
  induction l with
  | nil => intro acc f a h; exact h
  | cons it t ih =>
    intro acc f a h
    rw [List.foldl_cons]
    exact ih _ f a (mem_diags_processItem acc it f a h)

theorem mem_actions_run (item : ResultItem) (a : CodeActionEntry)
    (hs : suppressedItem item = false) (ha : a ∈ itemActionEntries item) :
    ∀ (l : List ResultItem) (acc : DiagMap × ActionsMap), item ∈ l →
      a ∈ entriesAt (l.foldl processItem acc).2 item.file := by
  intro l
  induction l with
  | nil => intro acc h; cases h
  | cons it t ih =>
    intro acc hmem
    rw [List.foldl_cons]
    rcases List.mem_cons.mp hmem with heq | ht
    · subst heq
      apply mem_actions_foldl
      unfold processItem
      rw [if_neg (by rw [hs]; exact Bool.false_ne_true)]
      rw [entriesAt_actionsAfterItem_self]
      exact List.mem_append_right _ ha
    · exact ih _ ht

theorem mem_diags_run (item : ResultItem)
    (hs : suppressedItem item = false) :
    ∀ (l : List ResultItem) (acc : DiagMap × ActionsMap), item ∈ l →
      diagnosticOfItem item ∈ entriesAt (l.foldl processItem acc).1 item.file := by
  intro l
  induction l with
  | nil => intro acc h; cases h
  | cons it t ih =>
    intro acc hmem
    rw [List.foldl_cons]
    rcases List.mem_cons.mp hmem with heq | ht
    · subst heq
      apply mem_diags_foldl
      unfold processItem
      rw [if_neg (by rw [hs]; exact Bool.false_ne_true)]
      rw [entriesAt_pushEntry_self]
      exact List.mem_append_right _ (List.mem_singleton.mpr rfl)
    · exact ih _ ht

/-- C8: a retained item whose message matches a removable phrasing
contributes, in addition to the zero-or-one replacement fix derived from
its `annotate` field, exactly one Delete quick-fix whose edit blanks out
precisely the item's reported four-integer range in the item's file and
which carries the clear-this-diagnostic command for the item's own
diagnostic; the Delete fix is present in the actions index of every run
whose result list contains the item. -/
theorem removable_fix_synthesis (item : ResultItem)
    (hns : suppressedItem item = false)
    (hrem : classifyMessage item.message = ClassifiedMessage.Removable) :
    itemActionEntries item
      = (match item.annotate with
         | some ann =>
           [{ range := issueLocationRange item, codeAction := annotateCodeAction item ann }]
         | none => [])
        ++ [{ range := issueLocationRange item
              codeAction := removeCodeAction item (diagnosticOfItem item) }] ∧
    (removeCodeAction item (diagnosticOfItem item)).edit.editRange = rawRange item ∧
    (removeCodeAction item (diagnosticOfItem item)).edit.newText = "" ∧
    (removeCodeAction item (diagnosticOfItem item)).edit.file = item.file ∧
    (removeCodeAction item (diagnosticOfItem item)).clearDiagnosticCommand
      = some (diagnosticOfItem item) ∧
    (∀ acc, entriesAt (processItem acc item).2 item.file
        = entriesAt acc.2 item.file ++ itemActionEntries item) ∧
    (∀ (results : List ResultItem) (actionsInit : ActionsMap), item ∈ results →
      ({ range := issueLocationRange item
         codeAction := removeCodeAction item (diagnosticOfItem item) } : CodeActionEntry)
        ∈ entriesAt (resultsToDiagnostics results actionsInit).2 item.file) := by
  refine ⟨?_, rfl, rfl, rfl, rfl, ?_, ?_⟩
  · unfold itemActionEntries
    rw [if_pos hrem]
  · intro acc
    unfold processItem
    rw [if_neg (by rw [hns]; exact Bool.false_ne_true)]
    exact entriesAt_actionsAfterItem_self acc.2 item
  · intro results actionsInit hmem
    apply mem_actions_run item _ hns _ results ([], actionsInit) hmem
    unfold itemActionEntries
    rw [if_pos hrem]
    exact List.mem_append_right _ (List.mem_singleton.mpr rfl)

/-- C8 witness: the spec's example — message exactly "fooVar is never
used" with range (4,0,4,10) and no `annotate` — yields, after a run on
just this item, a Delete fix blanking exactly (4,0,4,10). -/
theorem removable_fix_synthesis_witness :
    ({ range := issueLocationRange
          { name := "Warning Dead Value"
            kind := "value"
            file := "/repo/src/A.res"
            range := { startLine := 4, startCharacter := 0, endLine := 4, endCharacter := 10 }
            message := "fooVar is never used"
            annotate := none }
       codeAction := removeCodeAction
          { name := "Warning Dead Value"
            kind := "value"
            file := "/repo/src/A.res"
            range := { startLine := 4, startCharacter := 0, endLine := 4, endCharacter := 10 }
            message := "fooVar is never used"
            annotate := none }
          (diagnosticOfItem
            { name := "Warning Dead Value"
              kind := "value"
              file := "/repo/src/A.res"
              range := { startLine := 4, startCharacter := 0, endLine := 4, endCharacter := 10 }
              message := "fooVar is never used"
              annotate := none }) } : CodeActionEntry)
      ∈ entriesAt
          (resultsToDiagnostics
            [{ name := "Warning Dead Value"
               kind := "value"
               file := "/repo/src/A.res"
               range := { startLine := 4, startCharacter := 0, endLine := 4, endCharacter := 10 }
               message := "fooVar is never used"
               annotate := none }] []).2
          "/repo/src/A.res" ∧
    (removeCodeAction
        { name := "Warning Dead Value"
          kind := "value"
          file := "/repo/src/A.res"
          range := { startLine := 4, startCharacter := 0, endLine := 4, endCharacter := 10 }
          message := "fooVar is never used"
          annotate := none }
        (diagnosticOfItem
          { name := "Warning Dead Value"
            kind := "value"
            file := "/repo/src/A.res"
            range := { startLine := 4, startCharacter := 0, endLine := 4, endCharacter := 10 }
            message := "fooVar is never used"
            annotate := none })).edit.editRange
      = { start := { line := 4, character := 0 }, stop := { line := 4, character := 10 } } := by
  obtain ⟨-, hrange, -, -, -, -, hrun⟩ := removable_fix_synthesis
    { name := "Warning Dead Value"
      kind := "value"
      file := "/repo/src/A.res"
      range := { startLine := 4, startCharacter := 0, endLine := 4, endCharacter := 10 }
      message := "fooVar is never used"
      annotate := none }
    (by decide) (by decide)
  refine ⟨hrun _ [] (List.mem_singleton.mpr rfl), ?_⟩
  rw [hrange]
  rfl

/-- C9: a result item whose reported range has a negative start or end
line is normalized to a whole-document range — line 0, column 0 through
the upper-bound sentinel line 99999 — and (when retained) it is this
normalized diagnostic that lands in the diagnostics grouping of every
run containing the item, independently of any document length. -/
theorem whole_file_sentinel (item : ResultItem)
    (hneg : item.range.startLine < 0 ∨ item.range.endLine < 0) :
    issueLocationRange item
      = { start := { line := 0, character := 0 }
          stop := { line := 99999, character := 0 } } ∧
    (diagnosticOfItem item).range
      = { start := { line := 0, character := 0 }
          stop := { line := 99999, character := 0 } } ∧
    (suppressedItem item = false →
      ∀ (results : List ResultItem) (actionsInit : ActionsMap), item ∈ results →
        diagnosticOfItem item
          ∈ entriesAt (resultsToDiagnostics results actionsInit).1 item.file) := by
  have hb : (item.range.startLine < 0 || item.range.endLine < 0) = true := by
    rcases hneg with h | h
    · simp [h]
    · simp [h]
  have hr : issueLocationRange item
      = { start := { line := 0, character := 0 }
          stop := { line := 99999, character := 0 } } := by
    unfold issueLocationRange
    rw [if_pos hb]
  refine ⟨hr, ?_, ?_⟩
  · show (diagnosticOfItem item).range = _
    unfold diagnosticOfItem
    rw [hr]
  · intro hs results actionsInit hmem
    exact mem_diags_run item hs results ([], actionsInit) hmem

/-- C9 witness: the spec's example range (-1, 0, -1, 0) lands in the
published grouping as a (0,0)-(99999,0) whole-file diagnostic. -/
theorem whole_file_sentinel_witness :
    (diagnosticOfItem
        { name := "Warning Dead Module"
          kind := "module"
          file := "/repo/src/B.res"
          range := { startLine := -1, startCharacter := 0, endLine := -1, endCharacter := 0 }
          message := "B is a dead module"
          annotate := none }).range
      = { start := { line := 0, character := 0 }
          stop := { line := 99999, character := 0 } } ∧
    diagnosticOfItem
        { name := "Warning Dead Module"
          kind := "module"
          file := "/repo/src/B.res"
          range := { startLine := -1, startCharacter := 0, endLine := -1, endCharacter := 0 }
          message := "B is a dead module"
          annotate := none }
      ∈ entriesAt
          (resultsToDiagnostics
            [{ name := "Warning Dead Module"
               kind := "module"
               file := "/repo/src/B.res"
               range := { startLine := -1, startCharacter := 0, endLine := -1, endCharacter := 0 }
               message := "B is a dead module"
               annotate := none }] []).1
          "/repo/src/B.res" := by
  obtain ⟨-, hrange, hrun⟩ := whole_file_sentinel
    { name := "Warning Dead Module"
      kind := "module"
      file := "/repo/src/B.res"
      range := { startLine := -1, startCharacter := 0, endLine := -1, endCharacter := 0 }
      message := "B is a dead module"
      annotate := none }
    (Or.inl (by decide))
  exact ⟨hrange, hrun (by decide) _ [] (List.mem_singleton.mpr rfl)⟩

theorem map_fst_map_replace {α : Type} (k : String) (x : α) :
    ∀ m : List (String × List α),
      (m.map (fun e => if e.1 == k then (e.1, e.2 ++ [x]) else e)).map Prod.fst
        = m.map Prod.fst := by
  intro m
  induction m with
  | nil => rfl
  | cons e t ih =>
    simp only [List.map_cons, ih]
    by_cases hek : (e.1 == k) = true
    · rw [if_pos hek]
    · rw [if_neg hek]

theorem keysNodup_pushEntry {α : Type} (m : List (String × List α)) (k : String) (x : α)
    (h : (m.map Prod.fst).Nodup) : ((pushEntry m k x).map Prod.fst).Nodup := by
  unfold pushEntry
  by_cases ha : m.any (fun e => e.1 == k) = true
  · rw [if_pos ha, map_fst_map_replace]
    exact h
  · rw [if_neg ha, List.map_append]
    rw [List.nodup_append]
    refine ⟨h, List.nodup_singleton k, ?_⟩
    intro a ha1 ha2
    have ha2k : a = k := by simpa using ha2
    subst ha2k
    obtain ⟨e, he, hek⟩ := List.mem_map.mp ha1
    refine ha (List.any_eq_true.mpr ⟨e, he, ?_⟩)
    show (e.1 == a) = true
    rw [hek]
    exact beq_self_eq_true a

theorem keysNodup_processItem (acc : DiagMap × ActionsMap) (item : ResultItem)
    (h : (acc.1.map Prod.fst).Nodup) :
    ((processItem acc item).1.map Prod.fst).Nodup := by
  unfold processItem
  by_cases hs : suppressedItem item = true
  · rw [if_pos hs]
    exact h
  · rw [if_neg hs]
    exact keysNodup_pushEntry _ _ _ h

theorem keysNodup_foldl (l : List ResultItem) :
    ∀ acc : DiagMap × ActionsMap, (acc.1.map Prod.fst).Nodup →
      (((l.foldl processItem acc).1).map Prod.fst).Nodup := by
  induction l with
  | nil => intro acc h; exact h
  | cons it t ih =>
    intro acc h
    rw [List.foldl_cons]
    exact ih _ (keysNodup_processItem acc it h)

theorem keysNodup_resultsToDiagnostics (results : List ResultItem) (actionsInit : ActionsMap) :
    (((resultsToDiagnostics results actionsInit).1).map Prod.fst).Nodup :=
  keysNodup_foldl results ([], actionsInit) List.nodup_nil

theorem entriesAt_foldl_setEntry_not_mem {α : Type} (entries : List (String × List α)) :
    ∀ (base : List (String × List α)) (g : String), (∀ q ∈ entries, ¬ q.1 = g) →
      entriesAt (entries.foldl (fun c q => setEntry c q.1 q.2) base) g = entriesAt base g := by
  induction entries with
  | nil => intro base g h; rfl
  | cons q t ih =>
    intro base g h
    rw [List.foldl_cons, ih _ g (fun p hp => h p (List.mem_cons_of_mem q hp))]
    exact entriesAt_setEntry_ne base q.1 g q.2
      (fun hg => h q (List.mem_cons_self q t) hg.symm)

theorem entriesAt_foldl_setEntry_mem {α : Type} (entries : List (String × List α)) :
    ∀ (base : List (String × List α)) (g : String) (ds : List α),
      (entries.map Prod.fst).Nodup → (g, ds) ∈ entries →
      entriesAt (entries.foldl (fun c q => setEntry c q.1 q.2) base) g = ds := by
  induction entries with
  | nil => intro base g ds _ hmem; cases hmem
  | cons q t ih =>
    intro base g ds hnd hmem
    rw [List.foldl_cons]
    rcases List.mem_cons.mp hmem with heq | ht
    · have hq1 : q.1 = g := by rw [← heq]
      have hnot : ∀ p ∈ t, ¬ p.1 = g := by
        intro p hp hpg
        simp only [List.map_cons, List.nodup_cons] at hnd
        refine hnd.1 ?_
        rw [hq1, ← hpg]
        exact List.mem_map_of_mem Prod.fst hp
      rw [entriesAt_foldl_setEntry_not_mem t _ g hnot, ← heq]
      exact entriesAt_setEntry_self base g ds
    · simp only [List.map_cons, List.nodup_cons] at hnd
      exact ih _ g ds hnd.2 ht

/-- C4: the publishing delta of the close handler.  Every file that had
an entry in the previously published collection but no bucket in the new
grouping receives an explicit `delete` call and ends with an empty
diagnostic list; and in general the published collection agrees with the
new grouping on every file — files present in the new batch get a full
replacement, all others end empty. -/
theorem reconciliation_clears_fixed_files
    (prev : List (String × List Diagnostic)) (results : List ResultItem)
    (binaryPath monorepoRootPath f : String)
    (hf : f ∈ prev.map Prod.fst)
    (habsent : hasKeyB (resultsToDiagnostics results []).1 f = false) :
    f ∈ (onCloseReanalyze (some results) prev binaryPath monorepoRootPath).clearedUris ∧
    entriesAt (onCloseReanalyze (some results) prev binaryPath monorepoRootPath).collection f
      = [] ∧
    (∀ g, entriesAt
        (onCloseReanalyze (some results) prev binaryPath monorepoRootPath).collection g
      = entriesAt (resultsToDiagnostics results []).1 g) ∧
    (onCloseReanalyze (some results) prev binaryPath monorepoRootPath).statusStop = true := by
  have hgen : ∀ g, entriesAt
      (onCloseReanalyze (some results) prev binaryPath monorepoRootPath).collection g
      = entriesAt (resultsToDiagnostics results []).1 g := by
    intro g
    show entriesAt
      ((resultsToDiagnostics results []).1.foldl (fun c q => setEntry c q.1 q.2)
        (prev.filter (fun e => hasKeyB (resultsToDiagnostics results []).1 e.1))) g
      = entriesAt (resultsToDiagnostics results []).1 g
    by_cases hg : hasKeyB (resultsToDiagnostics results []).1 g = true
    · obtain ⟨e0, he0mem, he0p⟩ :=
        List.any_eq_true.mp hg
      have hfind : ∃ e1, (resultsToDiagnostics results []).1.find? (fun e => e.1 == g) = some e1 := by
        rcases hq : (resultsToDiagnostics results []).1.find? (fun e => e.1 == g) with _ | e1
        · exfalso
          rw [List.find?_eq_none] at hq
          exact hq e0 he0mem he0p
        · exact ⟨e1, hq⟩
      obtain ⟨e1, he1⟩ := hfind
      have he1p := List.find?_some he1
      have he1g : e1.1 = g := by simpa using he1p
      have he1mem : (g, e1.2) ∈ (resultsToDiagnostics results []).1 := by
        have := List.mem_of_find?_eq_some he1
        rwa [show e1 = (g, e1.2) from by rw [← he1g]] at this
      rw [entriesAt_foldl_setEntry_mem _ _ g e1.2
        (keysNodup_resultsToDiagnostics results []) he1mem]
      unfold entriesAt
      rw [he1]
      rfl
    · have hnog : ∀ q ∈ (resultsToDiagnostics results []).1, ¬ q.1 = g := by
        intro q hq hqg
        refine hg (List.any_eq_true.mpr ⟨q, hq, ?_⟩)
        show (q.1 == g) = true
        rw [hqg]
        exact beq_self_eq_true g
      rw [entriesAt_foldl_setEntry_not_mem _ _ g hnog]
      have hbase : (prev.filter
          (fun e => hasKeyB (resultsToDiagnostics results []).1 e.1)).find?
            (fun e => e.1 == g) = none := by
        rw [List.find?_eq_none]
        intro e he hep
        have hmem := List.mem_filter.mp he
        have heg : e.1 = g := by simpa using hep
        rw [heg] at hmem
        rw [Bool.not_eq_true] at hg
        rw [hg] at hmem
        cases hmem.2
      have hdm : (resultsToDiagnostics results []).1.find? (fun e => e.1 == g) = none := by
        rw [List.find?_eq_none]
        intro e he hep
        exact hnog e he (by simpa using hep)
      unfold entriesAt
      rw [hbase, hdm]
  refine ⟨?_, ?_, hgen, rfl⟩
  · obtain ⟨e, hemem, hef⟩ := List.mem_map.mp hf
    show f ∈ (prev.filter
      (fun e => ¬ hasKeyB (resultsToDiagnostics results []).1 e.1)).map (·.1)
    refine List.mem_map.mpr ⟨e, ?_, hef⟩
    refine List.mem_filter.mpr ⟨hemem, ?_⟩
    rw [hef, habsent]
    decide
  · rw [hgen f]
    unfold entriesAt
    have hdm : (resultsToDiagnostics results []).1.find? (fun e => e.1 == f) = none := by
      rw [List.find?_eq_none]
      intro e he hep
      have hany : (resultsToDiagnostics results []).1.any (fun e => e.1 == f) = true :=
        List.any_eq_true.mpr ⟨e, he, hep⟩
      unfold hasKeyB at habsent
      rw [habsent] at hany
      cases hany
    rw [hdm]
    rfl

/-- The spec's reconciliation example: the one retained result item for
`A.res` in the new batch. -/
def exampleItemA : ResultItem :=
  { name := "Warning Dead Value"
    kind := "value"
    file := "/p/A.res"
    range := { startLine := 2, startCharacter := 0, endLine := 2, endCharacter := 5 }
    message := "a is never used"
    annotate := none }

/-- The spec's reconciliation example: previous published state
`{A.res: [d1], B.res: [d2]}`. -/
def examplePrev : List (String × List Diagnostic) :=
  [("/p/A.res",
    [{ range := { start := { line := 2, character := 0 }, stop := { line := 2, character := 5 } }
       message := "a is never used"
       severity := VSeverity.warning }]),
   ("/p/B.res",
    [{ range := { start := { line := 3, character := 0 }, stop := { line := 3, character := 4 } }
       message := "b is never used"
       severity := VSeverity.warning }])]

/-- C4 witness: on the spec's example, `B.res` is explicitly deleted and
publishes as empty while `A.res` gets the full replacement. -/
theorem reconciliation_clears_fixed_files_witness :
    "/p/B.res" ∈ (onCloseReanalyze (some [exampleItemA]) examplePrev
      "/bin/rescript-tools" "/p").clearedUris ∧
    entriesAt (onCloseReanalyze (some [exampleItemA]) examplePrev
      "/bin/rescript-tools" "/p").collection "/p/B.res" = [] ∧
    entriesAt (onCloseReanalyze (some [exampleItemA]) examplePrev
      "/bin/rescript-tools" "/p").collection "/p/A.res"
      = [diagnosticOfItem exampleItemA] := by
  obtain ⟨h1, h2, hgen, -⟩ := reconciliation_clears_fixed_files examplePrev [exampleItemA]
    "/bin/rescript-tools" "/p" "/p/B.res" (by decide) (by decide)
  refine ⟨h1, h2, ?_⟩
  rw [hgen "/p/A.res"]
  decide

/-! ## BinaryLocator (`src/shared/src/findBinary.ts`)

`BinaryName` and the resolution pipeline of `findBinary`.  Reads of JSON
files are snapshots (`none` models a throw), `semver.gte` and the
dynamically imported `@rescript/<target>/bin.js` module are parameters
(`none` models a throw of the library call, which in `findBinary` is NOT
inside a try/catch and so rejects the whole call — modelled as
`Except.error ()`).  `process.platform`/`process.arch` enter through the
precomputed `platformDir` and `target` strings, as in the source. -/

/-- The `BinaryName` union type of `findBinary.ts`. -/
inductive BinaryName where
  | bscExe
  | rescriptEditorAnalysisExe
  | rescriptToolsExe
  | rescript
  | rewatchExe
  | rescriptExe
deriving DecidableEq, Repr

/-- The literal string of each `BinaryName`, as used in `path.join`. -/
def binaryFileName : BinaryName → String
  | BinaryName.bscExe => "bsc.exe"
  | BinaryName.rescriptEditorAnalysisExe => "rescript-editor-analysis.exe"
  | BinaryName.rescriptToolsExe => "rescript-tools.exe"
  | BinaryName.rescript => "rescript"
  | BinaryName.rewatchExe => "rewatch.exe"
  | BinaryName.rescriptExe => "rescript.exe"

/-- The named exports of the platform package's `bin.js`
(`binPaths`); a missing field is JavaScript `undefined`, i.e. `none`,
which the final `binaryPath != null` check turns into a `null` result. -/
structure BinPaths where
  bsc_exe : Option FsPath
  rescript_editor_analysis_exe : Option FsPath
  rewatch_exe : Option FsPath
  rescript_exe : Option FsPath
deriving DecidableEq, Repr

/-- The fields `findBinary` reads out of the rescript `package.json`:
`version` (absent key = `undefined` = `none` — `semver.gte(undefined,...)`
then throws outside the try/catch) and `bin.rescript` as path components
(`none` when the key is absent, making the later `path.join` throw). -/
structure RescriptPackageJSON where
  version : Option String
  binRescript : Option (List String)
deriving DecidableEq, Repr

/-- The filesystem snapshot `findBinary` runs against. -/
structure FindBinaryFS where
  disk : DiskSet
  /-- `readFile` + `JSON.parse` + `bsc_path` access of a
  `compiler-info.json` path: `none` = the read or parse threw (caught);
  `some none` = parsed, but `compileInfo && compileInfo.bsc_path` is
  falsy; `some (some p)` = a usable `bsc_path`. -/
  compilerInfoBscPath : FsPath → Option (Option FsPath)
  /-- `readFile` + `JSON.parse` + field access of a `package.json` path:
  `none` = something in the try block threw (caught, returns null). -/
  packageJSON : FsPath → Option RescriptPackageJSON
  /-- `fs.realpathSync` (total here; `findBinary` only applies it to the
  directory it just found on disk). -/
  realpath : FsPath → FsPath
  /-- `await import(targetPackagePath)`: `none` = the import throws
  (NOT caught by `findBinary`). -/
  binPathsAt : FsPath → Option BinPaths

/-- `compilerInfoPartialPath` from `findBinary.ts`
(`path.join("lib", "bs", "compiler-info.json")`). -/
def compilerInfoRelPath : FsPath := ["lib", "bs", "compiler-info.json"]

/-- The recursion of `findFilePathFromProjectRoot`: check
`path.join(directory, fileRelPath)` on disk, stop when the parent equals
the directory (filesystem root), else recurse on the parent. -/
def findFilePathFromProjectRootGo (d : DiskSet) (directory : FsPath)
    (fileRelPath : FsPath) : Option FsPath :=
  if existsSync d (directory ++ fileRelPath) then
    some (directory ++ fileRelPath)
  else if dirnameP directory = directory then
    none
  else
    findFilePathFromProjectRootGo d (dirnameP directory) fileRelPath
termination_by directory.length
decreasing_by
  rename_i h2
  refine dirnameP_length_lt directory fun hnil => ?_
  exact h2 (by rw [hnil]; rfl)

/-- `findFilePathFromProjectRoot` from `findBinary.ts` (the `null`
directory guard, then the upward walk). -/
def findFilePathFromProjectRoot (d : DiskSet) (directory : Option FsPath)
    (fileRelPath : FsPath) : Option FsPath :=
  match directory with
  | none => none
  | some dir => findFilePathFromProjectRootGo d dir fileRelPath

/-- Lines 128–132 of `findBinary.ts`: the common tail of every
dependency-walk branch — return the candidate only if it is non-null and
exists on disk, else null. -/
def existenceCheckedResult (d : DiskSet) (binaryPath : Option FsPath) :
    Except Unit (Option FsPath) :=
  match binaryPath with
  | some p => if existsSync d p then Except.ok (some p) else Except.ok none
  | none => Except.ok none

/-- The dependency-walk part of `findBinary` (everything after the
compiler-info shortcut): find `node_modules/rescript` by walking up,
read its `package.json`, then branch on the requested binary and the
package version.  `Except.error ()` marks the paths on which the
TypeScript code throws (rejects) rather than returning `null`. -/
def findBinaryViaRescriptDir (fs : FindBinaryFS)
    (semverGte : String → String → Option Bool) (platformDir target : String)
    (projectRootPath : Option FsPath) (binary : BinaryName) :
    Except Unit (Option FsPath) :=
  match findFilePathFromProjectRoot fs.disk projectRootPath ["node_modules", "rescript"] with
  | none => Except.ok none
  | some rescriptDir =>
    match fs.packageJSON (rescriptDir ++ ["package.json"]) with
    | none => Except.ok none
    | some pkg =>
      if binary = BinaryName.rescript then
        match pkg.binRescript with
        | none => Except.error ()
        | some wrapper => existenceCheckedResult fs.disk (some (rescriptDir ++ wrapper))
      else
        match pkg.version with
        | none => Except.error ()
        | some version =>
          match semverGte version "12.0.0-alpha.13" with
          | none => Except.error ()
          | some true =>
            -- targetPackagePath = path.join(realpathSync(rescriptDir), "..",
            -- `@rescript/<target>/bin.js`)
            match fs.binPathsAt
              (dirnameP (fs.realpath rescriptDir) ++ ["@rescript", target, "bin.js"]) with
            | none => Except.error ()
            | some binPaths =>
              existenceCheckedResult fs.disk
                (match binary with
                 | BinaryName.bscExe => binPaths.bsc_exe
                 | BinaryName.rescriptEditorAnalysisExe =>
                   binPaths.rescript_editor_analysis_exe
                 | BinaryName.rewatchExe => binPaths.rewatch_exe
                 | BinaryName.rescriptExe => binPaths.rescript_exe
                 | _ => none)
          | some false =>
            existenceCheckedResult fs.disk
              (some (rescriptDir ++ [platformDir, binaryFileName binary]))

/-- `findBinary` from `findBinary.ts`.  The `platformPath` override
returns its joined candidate immediately; the compiler-info shortcut
returns its derived candidate immediately; only the dependency walk runs
the final existence check. -/
def findBinary (fs : FindBinaryFS)
    (semverGte : String → String → Option Bool) (platformDir target : String)
    (projectRootPath : Option FsPath) (binary : BinaryName)
    (platformPath : Option FsPath) : Except Unit (Option FsPath) :=
  match platformPath with
  | some pp => Except.ok (some (pp ++ [binaryFileName binary]))
  | none =>
    match projectRootPath with
    | some root =>
      match fs.compilerInfoBscPath (root ++ compilerInfoRelPath) with
      | some (some bscPath) =>
        if binary = BinaryName.bscExe then
          Except.ok (some bscPath)
        else
          Except.ok (some (dirnameP bscPath ++ [binaryFileName binary]))
      | _ => findBinaryViaRescriptDir fs semverGte platformDir target projectRootPath binary
    | none => findBinaryViaRescriptDir fs semverGte platformDir target none binary

/-- The binary the code-analysis trigger path requests
(`runCodeAnalysisWithReanalyze`, `binary: "rescript-tools.exe"`). -/
def codeAnalysisRequestedBinary : BinaryName := BinaryName.rescriptToolsExe

theorem existenceCheckedResult_ok_some (d : DiskSet) (bp : Option FsPath) (p : FsPath)
    (h : existenceCheckedResult d bp = Except.ok (some p)) : existsSync d p = true := by
  rcases bp with _ | q
  · simp [existenceCheckedResult] at h
  · have h2 : (if existsSync d q = true then Except.ok (some q)
        else (Except.ok none : Except Unit (Option FsPath))) = Except.ok (some p) := h
    by_cases he : existsSync d q = true
    · rw [if_pos he] at h2
      injection h2 with h3
      injection h3 with h4
      rw [← h4]
      exact he
    · rw [if_neg he] at h2
      simp at h2

theorem findBinaryViaRescriptDir_existence (fs : FindBinaryFS)
    (semverGte : String → String → Option Bool) (platformDir target : String)
    (projectRootPath : Option FsPath) (binary : BinaryName) (p : FsPath)
    (h : findBinaryViaRescriptDir fs semverGte platformDir target projectRootPath binary
      = Except.ok (some p)) :
    existsSync fs.disk p = true := by
  unfold findBinaryViaRescriptDir at h
  rcases hwalk : findFilePathFromProjectRoot fs.disk projectRootPath
      ["node_modules", "rescript"] with _ | rdir
  · simp only [hwalk] at h
    exact Option.noConfusion (Except.ok.inj h)
  · simp only [hwalk] at h
    rcases hpkg : fs.packageJSON (rdir ++ ["package.json"]) with _ | pkg
    · simp only [hpkg] at h
      exact Option.noConfusion (Except.ok.inj h)
    · simp only [hpkg] at h
      by_cases hb : binary = BinaryName.rescript
      · rw [if_pos hb] at h
        rcases hbr : pkg.binRescript with _ | w
        · simp only [hbr] at h
          exact Except.noConfusion h
        · simp only [hbr] at h
          exact existenceCheckedResult_ok_some _ _ _ h
      · rw [if_neg hb] at h
        rcases hv : pkg.version with _ | version
        · simp only [hv] at h
          exact Except.noConfusion h
        · simp only [hv] at h
          rcases hge : semverGte version "12.0.0-alpha.13" with _ | b
          · simp only [hge] at h
            exact Except.noConfusion h
          · simp only [hge] at h
            cases b with
            | false => exact existenceCheckedResult_ok_some _ _ _ h
            | true =>
              rcases hbp : fs.binPathsAt
                  (dirnameP (fs.realpath rdir) ++ ["@rescript", target, "bin.js"])
                  with _ | bps
              · simp only [hbp] at h
                exact Except.noConfusion h
              · simp only [hbp] at h
                exact existenceCheckedResult_ok_some _ _ _ h

/-- C5 (amended): on the dependency-walk resolution path — no
`platformPath` override, and the compiler-info shortcut not applicable —
`findBinary` returns a path only if it exists on disk at call time.  The
`platformPath` override and the compiler-metadata shortcut return their
candidate without any existence check (see the counterexample). -/
theorem findBinary_existence_check_on_walk
    (fs : FindBinaryFS) (semverGte : String → String → Option Bool)
    (platformDir target : String) (projectRootPath : Option FsPath)
    (binary : BinaryName) (p : FsPath)
    (hci : ∀ root, projectRootPath = some root →
      fs.compilerInfoBscPath (root ++ compilerInfoRelPath) = none ∨
      fs.compilerInfoBscPath (root ++ compilerInfoRelPath) = some none)
    (hres : findBinary fs semverGte platformDir target projectRootPath binary none
      = Except.ok (some p)) :
    existsSync fs.disk p = true := by
  unfold findBinary at hres
  rcases hroot : projectRootPath with _ | root
  · simp only [hroot] at hres
    exact findBinaryViaRescriptDir_existence _ _ _ _ _ _ _ hres
  · simp only [hroot] at hres
    rcases hc : fs.compilerInfoBscPath (root ++ compilerInfoRelPath) with _ | ob
    · simp only [hc] at hres
      rw [← hroot] at hres
      exact findBinaryViaRescriptDir_existence _ _ _ _ _ _ _ hres
    · rcases ob with _ | bsc
      · simp only [hc] at hres
        rw [← hroot] at hres
        exact findBinaryViaRescriptDir_existence _ _ _ _ _ _ _ hres
      · rcases hci root hroot with hno | hno <;> rw [hc] at hno <;> cases hno

/-- C5 counterexample: with an entirely empty disk, the `platformPath`
override branch returns the joined candidate even though it does not
exist, so "returns a binary path only if that path exists on disk, on
every resolution branch" is false as stated. -/
theorem findBinary_platformPath_skips_existence_check :
    findBinary
      { disk := { exists_ := [] }
        compilerInfoBscPath := fun _ => none
        packageJSON := fun _ => none
        realpath := fun q => q
        binPathsAt := fun _ => none }
      (fun _ _ => none) "linux" "linux-x64" none BinaryName.bscExe
      (some ["opt", "bin"])
      = Except.ok (some ["opt", "bin", "bsc.exe"]) ∧
    existsSync { exists_ := [] } ["opt", "bin", "bsc.exe"] = false :=
  ⟨rfl, rfl⟩

/-- The snapshot for the C5 witness: a pre-threshold (11.x) install whose
platform binary is on disk. -/
def walkWitnessFS : FindBinaryFS :=
  { disk := { exists_ :=
      [["repo", "node_modules", "rescript"],
       ["repo", "node_modules", "rescript", "linux", "bsc.exe"]] }
    compilerInfoBscPath := fun _ => none
    packageJSON := fun p =>
      if p = ["repo", "node_modules", "rescript", "package.json"] then
        some { version := some "11.1.4", binRescript := some ["cli", "rescript"] }
      else none
    realpath := fun q => q
    binPathsAt := fun _ => none }

/-- C5 witness: a successful dependency-walk resolution, whose returned
path the amended theorem certifies to exist on disk. -/
theorem findBinary_existence_check_on_walk_witness :
    findBinary walkWitnessFS (fun _ _ => some false) "linux" "linux-x64"
        (some ["repo"]) BinaryName.bscExe none
      = Except.ok (some ["repo", "node_modules", "rescript", "linux", "bsc.exe"]) ∧
    existsSync walkWitnessFS.disk
      ["repo", "node_modules", "rescript", "linux", "bsc.exe"] = true := by
  have hwalk : findFilePathFromProjectRoot walkWitnessFS.disk (some ["repo"])
      ["node_modules", "rescript"] = some ["repo", "node_modules", "rescript"] := by
    show findFilePathFromProjectRootGo walkWitnessFS.disk ["repo"]
      ["node_modules", "rescript"] = _
    rw [findFilePathFromProjectRootGo]
    decide
  have hres : findBinary walkWitnessFS (fun _ _ => some false) "linux" "linux-x64"
      (some ["repo"]) BinaryName.bscExe none
      = Except.ok (some ["repo", "node_modules", "rescript", "linux", "bsc.exe"]) := by
    show findBinaryViaRescriptDir walkWitnessFS (fun _ _ => some false) "linux" "linux-x64"
      (some ["repo"]) BinaryName.bscExe = _
    unfold findBinaryViaRescriptDir
    rw [hwalk]
    rfl
  exact ⟨hres,
    findBinary_existence_check_on_walk walkWitnessFS (fun _ _ => some false)
      "linux" "linux-x64" (some ["repo"]) BinaryName.bscExe _
      (by
        intro root hr
        injection hr with h2
        subst h2
        exact Or.inl rfl)
      hres⟩

/-- C6: for a project whose rescript dependency is at or above
12.0.0-alpha.13 (no compiler-info shortcut, no `platformPath` override,
platform package importable), `findBinary` answers NotFound (`null`) for
`rescript-tools.exe` — the binary the code-analysis trigger requests —
no matter what is on disk, because the platform-package branch only
assigns a path for the four binaries it knows. -/
theorem rescript_tools_unresolvable_post_threshold
    (fs : FindBinaryFS) (semverGte : String → String → Option Bool)
    (platformDir target : String) (projectRootPath : Option FsPath)
    (rescriptDir : FsPath) (pkg : RescriptPackageJSON) (version : String)
    (binPaths : BinPaths)
    (hci : ∀ root, projectRootPath = some root →
      fs.compilerInfoBscPath (root ++ compilerInfoRelPath) = none ∨
      fs.compilerInfoBscPath (root ++ compilerInfoRelPath) = some none)
    (hwalk : findFilePathFromProjectRoot fs.disk projectRootPath ["node_modules", "rescript"]
      = some rescriptDir)
    (hpkg : fs.packageJSON (rescriptDir ++ ["package.json"]) = some pkg)
    (hver : pkg.version = some version)
    (hge : semverGte version "12.0.0-alpha.13" = some true)
    (hbp : fs.binPathsAt (dirnameP (fs.realpath rescriptDir) ++ ["@rescript", target, "bin.js"])
      = some binPaths) :
    findBinary fs semverGte platformDir target projectRootPath
        codeAnalysisRequestedBinary none
      = Except.ok none ∧
    codeAnalysisRequestedBinary = BinaryName.rescriptToolsExe := by
  have hvia : findBinaryViaRescriptDir fs semverGte platformDir target projectRootPath
      codeAnalysisRequestedBinary = Except.ok none := by
    unfold findBinaryViaRescriptDir
    simp only [hwalk, hpkg, hver, hge, hbp, codeAnalysisRequestedBinary]
    rfl
  refine ⟨?_, rfl⟩
  unfold findBinary
  rcases hroot : projectRootPath with _ | root
  · rw [hroot] at hvia
    simp only [hroot]
    exact hvia
  · rcases hci root hroot with hno | hno <;>
      simp only [hroot, hno] <;>
      rw [← hroot] <;>
      exact hvia

/-- The snapshot for the C6 witness: a post-threshold (12.1.0) install
whose platform package is importable and whose `rescript-tools.exe`
binary even exists on disk. -/
def toolsWitnessFS : FindBinaryFS :=
  { disk := { exists_ :=
      [["repo", "node_modules", "rescript"],
       ["repo", "node_modules", "@rescript", "linux-x64", "rescript-tools.exe"]] }
    compilerInfoBscPath := fun _ => none
    packageJSON := fun p =>
      if p = ["repo", "node_modules", "rescript", "package.json"] then
        some { version := some "12.1.0", binRescript := some ["cli", "rescript"] }
      else none
    realpath := fun q => q
    binPathsAt := fun p =>
      if p = ["repo", "node_modules", "@rescript", "linux-x64", "bin.js"] then
        some { bsc_exe := some ["repo", "node_modules", "@rescript", "linux-x64", "bsc.exe"]
               rescript_editor_analysis_exe :=
                 some ["repo", "node_modules", "@rescript", "linux-x64",
                   "rescript-editor-analysis.exe"]
               rewatch_exe := none
               rescript_exe := none }
      else none }

/-- C6 witness: although `rescript-tools.exe` is on disk, `findBinary`
for the code-analysis binary answers NotFound on a 12.1.0 install. -/
theorem rescript_tools_unresolvable_post_threshold_witness :
    findBinary toolsWitnessFS (fun _ _ => some true) "linux" "linux-x64"
        (some ["repo"]) codeAnalysisRequestedBinary none
      = Except.ok none ∧
    existsSync toolsWitnessFS.disk
      ["repo", "node_modules", "@rescript", "linux-x64", "rescript-tools.exe"] = true := by
  have hwalk : findFilePathFromProjectRoot toolsWitnessFS.disk (some ["repo"])
      ["node_modules", "rescript"] = some ["repo", "node_modules", "rescript"] := by
    show findFilePathFromProjectRootGo toolsWitnessFS.disk ["repo"]
      ["node_modules", "rescript"] = _
    rw [findFilePathFromProjectRootGo]
    decide
  refine ⟨?_, by decide⟩
  exact (rescript_tools_unresolvable_post_threshold toolsWitnessFS (fun _ _ => some true)
    "linux" "linux-x64" (some ["repo"]) ["repo", "node_modules", "rescript"]
    { version := some "12.1.0", binRescript := some ["cli", "rescript"] }
    "12.1.0"
    { bsc_exe := some ["repo", "node_modules", "@rescript", "linux-x64", "bsc.exe"]
      rescript_editor_analysis_exe :=
        some ["repo", "node_modules", "@rescript", "linux-x64",
          "rescript-editor-analysis.exe"]
      rewatch_exe := none
      rescript_exe := none }
    (by
      intro root hr
      injection hr with h2
      subst h2
      exact Or.inl rfl)
    hwalk rfl rfl rfl rfl).1

end Rsv
